import Mathlib

/-
Shallow embedding of src/aggregierter_feed.py, an RSS aggregation script.

External collaborators of the script (the HTTP client with its responses,
the HTML parser, the feed parsing library, URL resolution and parsing, and
the date library) are modelled as components of an explicit environment
value; every function of the script itself is translated function by
function. A raised exception of a library call is modelled by an error
value of an Except or Option result, and the try/except blocks of the
script become matches on those results. Outbound HTTP requests are
collected into an explicit trace so that statements about request headers
can be made.
-/

/-- Checks that the second character list is a prefix of the first, as the
    Python method startswith does on strings. -/
def listStartsWith : List Char → List Char → Bool
  | _, [] => true
  | [], _ :: _ => false
  | a :: as, b :: bs => a == b && listStartsWith as bs

/-- Python substring membership (pat in s) on character lists. -/
def hasSub : List Char → List Char → Bool
  | [], pat => pat.isEmpty
  | s@(_ :: rest), pat => listStartsWith s pat || hasSub rest pat

/-- Python substring membership: pat in s. -/
def strContains (s pat : String) : Bool := hasSub s.data pat.data

/-- Python: s.startswith(pat). -/
def pyStartsWith (s pat : String) : Bool := listStartsWith s.data pat.data

/-- ASCII lower casing of one character; this models the effect of the
    re.I flag on the ASCII keyword patterns of the script. -/
def asciiLower (c : Char) : Char :=
  if 65 ≤ c.toNat ∧ c.toNat ≤ 90 then Char.ofNat (c.toNat + 32) else c

/-- Python: url.rstrip with the slash character. -/
def rstripSlash (s : String) : String :=
  ⟨(s.data.reverse.dropWhile (fun c => c == '/')).reverse⟩

/-- Python: s.replace applied with the one character pattern Z and the
    replacement +00:00, exactly the call made inside parse_date. -/
def replaceZ : List Char → List Char
  | [] => []
  | c :: rest =>
    if c == 'Z' then '+' :: '0' :: '0' :: ':' :: '0' :: '0' :: replaceZ rest
    else c :: replaceZ rest

/-- String form of replaceZ. -/
def replaceZStr (s : String) : String := ⟨replaceZ s.data⟩

/-- Matches the date like regex piece of four digits, a slash and two
    digits at the head of a character list. -/
def dateAt : List Char → Bool
  | a :: b :: c :: d :: s :: e :: f :: _ =>
    a.isDigit && b.isDigit && c.isDigit && d.isDigit && s == '/' && e.isDigit && f.isDigit
  | _ => false

/-- Finds the date like regex piece anywhere in a character list. -/
def hasDateSub : List Char → Bool
  | [] => false
  | l@(_ :: rest) => dateAt l || hasDateSub rest

/-- Counts maximal runs of non slash characters, which equals the number of
    non empty parts of the Python split on the slash character. -/
def segCountAux : List Char → Bool → Nat
  | [], _ => 0
  | c :: rest, inSeg =>
    if c == '/' then segCountAux rest false
    else if inSeg then segCountAux rest true
    else segCountAux rest true + 1

/-- Number of non empty components of path.split on slash. -/
def pathDepth (path : String) : Nat := segCountAux path.data false

/-- One club row as consumed by aggregate: a name and an optional url. -/
structure Club where
  name : String
  url : Option String
deriving DecidableEq

/-- One news item dictionary of the script. -/
structure Item where
  title : String
  link : String
  description : String
  pubDate : String
deriving DecidableEq

/-- A link element found by the HTML parser, with its type and href
    attribute values when present. -/
structure LinkTag where
  typeAttr : Option String
  href : Option String
deriving DecidableEq

/-- An anchor element that has an href attribute, together with its
    stripped visible text. -/
structure Anchor where
  href : String
  text : String
deriving DecidableEq

/-- An HTTP response: status code, the Content-Type header with its empty
    default, the body text, and the link and anchor elements the HTML
    parser extracts from that body. -/
structure Response where
  status : Nat
  contentType : String
  text : String
  linkTags : List LinkTag
  anchors : List Anchor
deriving DecidableEq

/-- A feed entry as returned by the feed parsing library; entryId stands
    for the id field of an entry. -/
structure FeedEntry where
  title : Option String
  link : Option String
  entryId : Option String
  summary : Option String
  publishedParsed : Option Int
  published : Option String
  updated : Option String
deriving DecidableEq

/-- The parsed feed document. -/
structure FeedDoc where
  entries : List FeedEntry
deriving DecidableEq

/-- Which library an outbound request went through: the HTTP client used
    directly by the script, or the feed parsing library fetching a feed
    url on its own. -/
inductive ReqKind where
  | requestsLib
  | feedparserLib
deriving DecidableEq

/-- A record of one outbound HTTP request: the target url, the user agent
    value the program supplied for it (none when the program supplied no
    agent), the timeout the program supplied, and the issuing library. -/
structure Request where
  url : String
  userAgent : Option String
  timeout : Option Nat
  via : ReqKind
deriving DecidableEq

/-- The external world of the script: network responses keyed by url, the
    feed parsing library, URL resolution and path extraction, and the date
    helpers. Dates are modelled as integers ordered chronologically.
    A raised library exception is an error or none value. -/
structure Env where
  net : String → Except String Response
  feeds : String → Except String FeedDoc
  urljoin : String → String → String
  urlpath : String → String
  fmtTime : Int → String
  nowStr : String
  nowTs : Nat
  isoParse : String → Option Int
  rfcParse : String → Option Int
  nowD : Int

/-- The fixed client identifier of the script. -/
def USER_AGENT : String := "VereineRSSAggregator/1.0 (+https://example.com)"

/-- The default request timeout constant. -/
def REQUEST_TIMEOUT : Nat := 12

/-- The per source item cap constant. -/
def MAX_ITEMS_PER_SOURCE : Nat := 8

/-- The seen table: one row per guid with a first seen timestamp; the guid
    column carries a uniqueness constraint. -/
structure SeenStore where
  records : List (String × Nat)
deriving DecidableEq

/-- SELECT 1 FROM seen WHERE guid equals the argument; true when a row
    exists. -/
def is_seen (st : SeenStore) (guid : String) : Bool :=
  st.records.any (fun rec => rec.1 == guid)

/-- INSERT of the pair of guid and the current time; a uniqueness violation
    raises IntegrityError, which mark_seen swallows with pass, leaving the
    store unchanged. -/
def mark_seen (st : SeenStore) (guid : String) (now : Nat) : SeenStore :=
  if is_seen st guid then st else ⟨(guid, now) :: st.records⟩

/-- A request issued directly through the HTTP client, always with the
    fixed user agent header and the given timeout. -/
def mkGetRequest (url : String) (t : Nat) : Request :=
  ⟨url, some USER_AGENT, some t, ReqKind.requestsLib⟩

/-- http_get: a client get with the fixed user agent and default timeout,
    followed by raise_for_status, which raises on 4xx and 5xx codes. -/
def http_get (net : String → Except String Response) (url : String) :
    Except String Response × List Request :=
  (match net url with
   | Except.error e => Except.error e
   | Except.ok r =>
     if 400 ≤ r.status ∧ r.status < 600 then Except.error "HTTPError" else Except.ok r,
   [mkGetRequest url REQUEST_TIMEOUT])

/-- The type filter the script hands to the HTML parser: a search of the
    pattern matching application/rss+xml, text/rss+xml or
    application/atom+xml anywhere in the type attribute value. -/
def typeMatches (t : String) : Bool :=
  strContains t "application/rss+xml" || strContains t "text/rss+xml" ||
    strContains t "application/atom+xml"

/-- Link elements whose type attribute is present and matches the feed
    type pattern, in document order. -/
def filterLinkTags (tags : List LinkTag) : List LinkTag :=
  tags.filter (fun lt => match lt.typeAttr with
    | some t => typeMatches t
    | none => false)

/-- The loop over the matching link tags: return the first truthy href
    resolved against the page url; tags with an absent or empty href are
    skipped. -/
def findHrefResolved (uj : String → String → String) (url : String) :
    List LinkTag → Option String
  | [] => none
  | lt :: rest =>
    match lt.href with
    | some h => if h == "" then findHrefResolved uj url rest else some (uj url h)
    | none => findHrefResolved uj url rest

/-- The first truthy href among a list of link tags, unresolved. -/
def firstHref : List LinkTag → Option String
  | [] => none
  | lt :: rest =>
    match lt.href with
    | some h => if h == "" then firstHref rest else some h
    | none => firstHref rest

/-- The fixed ordered candidate feed paths appended to the stripped url. -/
def candidates (url : String) : List String :=
  [rstripSlash url ++ "/feed", rstripSlash url ++ "/rss", rstripSlash url ++ "/rss.xml",
   rstripSlash url ++ "/news/rss", rstripSlash url ++ "/news/feed",
   rstripSlash url ++ "/aktuelles/feed"]

/-- Acceptance test on a candidate response: status 200, and either xml in
    the Content-Type header or a case sensitive occurrence of the open rss
    or open feed tag text in the body; the body search carries no ignore
    case flag in the source. -/
def candidateOk (rr : Response) : Bool :=
  rr.status == 200 &&
    (strContains rr.contentType "xml" || strContains rr.text "<rss" ||
      strContains rr.text "<feed")

/-- The candidate probing loop: a short timeout get per candidate, errors
    continue the loop, and the first accepted candidate url is returned. -/
def probeCandidates (net : String → Except String Response) :
    List String → Option String × List Request
  | [] => (none, [])
  | c :: rest =>
    match net c with
    | Except.error _ =>
      let r := probeCandidates net rest
      (r.1, mkGetRequest c 6 :: r.2)
    | Except.ok rr =>
      if candidateOk rr then (some c, [mkGetRequest c 6])
      else
        let r := probeCandidates net rest
        (r.1, mkGetRequest c 6 :: r.2)

/-- discover_rss_from_url: fetch the page (any failure, including a raised
    status error, is caught and yields none), then return the first
    matching link element href resolved, else probe the candidate paths. -/
def discover_rss_from_url (env : Env) (url : String) : Option String × List Request :=
  match http_get env.net url with
  | (Except.error _, tr) => (none, tr)
  | (Except.ok r, tr) =>
    match findHrefResolved env.urljoin url (filterLinkTags r.linkTags) with
    | some f => (some f, tr)
    | none =>
      let p := probeCandidates env.net (candidates url)
      (p.1, tr ++ p.2)

/-- Python truthiness chain on an optional string with a default: an
    absent or empty string falls through to the default. -/
def pyOrStr (o : Option String) (d : String) : String :=
  match o with
  | some s => if s == "" then d else s
  | none => d

/-- Python truthiness chain of two optional strings: the second value is
    taken as is when the first is absent or empty. -/
def pyOrOpt (a b : Option String) : Option String :=
  match a with
  | some s => if s == "" then b else some s
  | none => b

/-- The per entry mapping of fetch_feed_items: placeholder title, link
    falling back to the entry id and dropping the entry when both are
    falsy, empty default summary, and the publication date chain. -/
def entryToItem (env : Env) (e : FeedEntry) : Option Item :=
  let title := pyOrStr e.title "(kein Titel)"
  match pyOrOpt e.link e.entryId with
  | none => none
  | some l =>
    if l == "" then none
    else
      let desc := e.summary.getD ""
      let pubdate :=
        match e.publishedParsed with
        | some t => env.fmtTime t
        | none => pyOrStr e.published (pyOrStr e.updated env.nowStr)
      some ⟨title, l, desc, pubdate⟩

/-- fetch_feed_items: the feed parsing library fetches the url on its own;
    the program passes no agent argument to it, so the recorded request
    carries none as the supplied user agent. A raised parse error is
    caught and yields the empty item list. -/
def fetch_feed_items (env : Env) (rss_url : String) : List Item × List Request :=
  let req : Request := ⟨rss_url, none, none, ReqKind.feedparserLib⟩
  match env.feeds rss_url with
  | Except.error _ => ([], [req])
  | Except.ok f =>
    ((f.entries.take MAX_ITEMS_PER_SOURCE).filterMap (entryToItem env), [req])

/-- The article regex of scrape_for_articles, searched with the ignore
    case flag over the whole resolved url string. -/
def articleRegex (full : String) : Bool :=
  let f := full.data.map asciiLower
  hasSub f ("/news/".data) || hasSub f ("/article/".data) || hasSub f ("/artikel/".data) ||
  hasSub f ("/aktuell".data) || hasSub f ("/presse".data) || hasSub f ("/blog".data) ||
  hasSub f ("/berichte".data) || hasSub f ("/nachrichten".data) || hasSub f ("/news-".data) ||
  hasDateSub f

/-- The anchor loop of scrape_for_articles: skip anchors with short or
    empty text and fragment or mailto hrefs, resolve the href, keep it
    when the article regex matches the full url, else when the url path
    has at least three non empty segments. -/
def anchorCandidates (env : Env) (page_url : String) : List Anchor → List (String × String)
  | [] => []
  | a :: rest =>
    if a.text.length < 5 then anchorCandidates env page_url rest
    else if pyStartsWith a.href "#" || pyStartsWith a.href "mailto:" then
      anchorCandidates env page_url rest
    else
      let full := env.urljoin page_url a.href
      if articleRegex full then (full, a.text) :: anchorCandidates env page_url rest
      else if 3 ≤ pathDepth (env.urlpath full) then
        (full, a.text) :: anchorCandidates env page_url rest
      else anchorCandidates env page_url rest

/-- The dedup and cap loop of scrape_for_articles: first occurrence per
    resolved url, breaking once the cap is reached. -/
def uniqueTake : List (String × String) → List String → Nat → List (String × String)
  | [], _, _ => []
  | p :: rest, seenLinks, n =>
    if seenLinks.contains p.1 then uniqueTake rest seenLinks n
    else if MAX_ITEMS_PER_SOURCE ≤ n + 1 then [p]
    else p :: uniqueTake rest (p.1 :: seenLinks) (n + 1)

/-- scrape_for_articles: fetch the page (failures caught, empty result),
    collect candidate links, dedup and cap them, and build the items with
    the fixed description note and the current time. -/
def scrape_for_articles (env : Env) (page_url : String) : List Item × List Request :=
  match http_get env.net page_url with
  | (Except.error _, tr) => ([], tr)
  | (Except.ok r, tr) =>
    let uniq := uniqueTake (anchorCandidates env page_url r.anchors) [] 0
    (uniq.map (fun p => ⟨p.2, p.1, "Artikel von " ++ page_url, env.nowStr⟩), tr)

/-- The fixed ordered news listing sub paths tried by aggregate. -/
def guess_paths : List String := ["/news", "/aktuelles", "/presse", "/news/feed", "/de/aktuelles"]

/-- The listing page probing loop of aggregate: a short timeout get per
    sub path, errors continue, and the first response with status 200 and
    a body longer than 200 characters wins. -/
def probeGuess (net : String → Except String Response) (url : String) :
    List String → Option String × List Request
  | [] => (none, [])
  | gp :: rest =>
    let guess := rstripSlash url ++ gp
    match net guess with
    | Except.error _ =>
      let r := probeGuess net url rest
      (r.1, mkGetRequest guess 6 :: r.2)
    | Except.ok r =>
      if r.status = 200 ∧ 200 < r.text.length then (some guess, [mkGetRequest guess 6])
      else
        let rr := probeGuess net url rest
        (rr.1, mkGetRequest guess 6 :: rr.2)

/-- The per source item collection of aggregate: discovery feeding the
    feed reader, else listing page probing feeding the scraper, else
    scraping the source url itself; sources without a url contribute
    nothing. -/
def source_items_for (env : Env) (c : Club) : List Item × List Request :=
  match c.url with
  | none => ([], [])
  | some url =>
    match discover_rss_from_url env url with
    | (some rss, tr) =>
      let f := fetch_feed_items env rss
      (f.1, tr ++ f.2)
    | (none, tr) =>
      match probeGuess env.net url guess_paths with
      | (some guess, tr2) =>
        let s := scrape_for_articles env guess
        (s.1, tr ++ tr2 ++ s.2)
      | (none, tr2) =>
        let s := scrape_for_articles env url
        (s.1, tr ++ tr2 ++ s.2)

/-- The attribution step of aggregate on one item: conditional title
    prefixing and unconditional description prefixing. -/
def addAttribution (name : String) (it : Item) : Item :=
  let newTitle :=
    if strContains it.title " - " = false ∧ pyStartsWith it.title (name ++ ":") = false
    then name ++ ": " ++ it.title else it.title
  ⟨newTitle, it.link, "Quelle: " ++ name ++ ". " ++ it.description, it.pubDate⟩

/-- The dedup loop of aggregate over the items of one source, threading
    the seen store: already seen links are discarded, fresh links are
    marked seen and kept. -/
def dedupNew (now : Nat) : SeenStore → List Item → List Item × SeenStore
  | st, [] => ([], st)
  | st, it :: rest =>
    if is_seen st it.link then dedupNew now st rest
    else
      let r := dedupNew now (mark_seen st it.link now) rest
      (it :: r.1, r.2)

/-- The source loop of aggregate: per club collect the items, attribute
    them, dedup them against the store, and concatenate, also collecting
    the request trace. -/
def aggregateClubs (env : Env) : SeenStore → List Club → List Item × SeenStore × List Request
  | st, [] => ([], st, [])
  | st, c :: rest =>
    let si := source_items_for env c
    let d := dedupNew env.nowTs st (si.1.map (addAttribution c.name))
    let r := aggregateClubs env d.2 rest
    (d.1 ++ r.1, r.2.1, si.2 ++ r.2.2)

/-- The inner parse_date of aggregate: fromisoformat on the string with Z
    replaced, else the RFC 2822 parser on the original string, else the
    current time; each library failure is an except branch, modelled by
    the option results of the two parsers. -/
def parse_date (isoParse rfcParse : String → Option Int) (now : Int) (s : String) : Int :=
  match isoParse (replaceZStr s) with
  | some d => d
  | none =>
    match rfcParse s with
    | some d => d
    | none => now

/-- The sort key used by aggregate on one item. -/
def parseDateKey (env : Env) (it : Item) : Int :=
  parse_date env.isoParse env.rfcParse env.nowD it.pubDate

/-- Stable descending insertion by the sort key; the list sort call of
    aggregate with a key and the reverse flag is the stable descending
    sort by that key, and stable sorts of the same key agree
    extensionally, so this insertion sort models it faithfully. -/
def insertDesc (key : Item → Int) (a : Item) : List Item → List Item
  | [] => [a]
  | x :: xs => if key x ≤ key a then a :: x :: xs else x :: insertDesc key a xs

/-- The stable descending sort by the parse_date key. -/
def sortDesc (key : Item → Int) : List Item → List Item
  | [] => []
  | a :: l => insertDesc key a (sortDesc key l)

/-- aggregate: the source loop followed by the descending sort by parsed
    publication date; the final seen store and the request trace are
    returned alongside the sorted items. -/
def aggregate (env : Env) (clubs : List Club) (st : SeenStore) :
    List Item × SeenStore × List Request :=
  let r := aggregateClubs env st clubs
  (sortDesc (parseDateKey env) r.1, r.2.1, r.2.2)

/-- Marking one guid preserves every previously seen guid. -/
theorem is_seen_mark_seen (st : SeenStore) (g l : String) (n : Nat)
    (h : is_seen st l = true) : is_seen (mark_seen st g n) l = true := by
  unfold mark_seen
  split
  · exact h
  · simp only [is_seen, List.any_cons, Bool.or_eq_true]
    exact Or.inr h

/-- After marking a guid it is seen. -/
theorem is_seen_mark_self (st : SeenStore) (g : String) (n : Nat) :
    is_seen (mark_seen st g n) g = true := by
  unfold mark_seen
  split
  · assumption
  · simp [is_seen]

/-- Unfolding of the dedup loop on an already seen head item. -/
theorem dedupNew_cons_seen (now : Nat) (st : SeenStore) (i : Item) (rest : List Item)
    (hs : is_seen st i.link = true) :
    dedupNew now st (i :: rest) = dedupNew now st rest := by
  simp [dedupNew, hs]

/-- Unfolding of the dedup loop on a fresh head item. -/
theorem dedupNew_cons_fresh (now : Nat) (st : SeenStore) (i : Item) (rest : List Item)
    (hs : is_seen st i.link = false) :
    dedupNew now st (i :: rest) =
      (i :: (dedupNew now (mark_seen st i.link now) rest).1,
        (dedupNew now (mark_seen st i.link now) rest).2) := by
  simp [dedupNew, hs]

/-- The dedup loop never unmarks a seen guid. -/
theorem dedupNew_mono (now : Nat) (its : List Item) (st : SeenStore) (l : String)
    (h : is_seen st l = true) : is_seen (dedupNew now st its).2 l = true := by
  induction its generalizing st with
  | nil => exact h
  | cons it rest ih =>
    rcases Bool.eq_false_or_eq_true (is_seen st it.link) with hs | hs
    · rw [dedupNew_cons_seen now st it rest hs]
      exact ih st h
    · rw [dedupNew_cons_fresh now st it rest hs]
      exact ih _ (is_seen_mark_seen st it.link l now h)

/-- Every item kept by the dedup loop has its link marked in the final
    store. -/
theorem dedupNew_kept_marked (now : Nat) (its : List Item) (st : SeenStore) (it : Item)
    (h : it ∈ (dedupNew now st its).1) :
    is_seen (dedupNew now st its).2 it.link = true := by
  induction its generalizing st with
  | nil => simp [dedupNew] at h
  | cons i rest ih =>
    rcases Bool.eq_false_or_eq_true (is_seen st i.link) with hs | hs
    · rw [dedupNew_cons_seen now st i rest hs] at h ⊢
      exact ih st h
    · rw [dedupNew_cons_fresh now st i rest hs] at h ⊢
      rcases List.mem_cons.mp h with he | hm
      · subst he
        exact dedupNew_mono now rest _ _ (is_seen_mark_self st it.link now)
      · exact ih _ hm

/-- A link seen before the dedup loop runs is never kept by it. -/
theorem dedupNew_seen_not_kept (now : Nat) (its : List Item) (st : SeenStore) (l : String)
    (h : is_seen st l = true) :
    ∀ it ∈ (dedupNew now st its).1, it.link ≠ l := by
  induction its generalizing st with
  | nil => intro it hit; simp [dedupNew] at hit
  | cons i rest ih =>
    rcases Bool.eq_false_or_eq_true (is_seen st i.link) with hs | hs
    · rw [dedupNew_cons_seen now st i rest hs]
      exact ih st h
    · rw [dedupNew_cons_fresh now st i rest hs]
      intro it hit
      rcases List.mem_cons.mp hit with he | hm
      · subst he
        intro hlink
        rw [hlink, h] at hs
        exact absurd hs (by simp)
      · exact ih _ (is_seen_mark_seen st i.link l now h) it hm

/-- Every item kept by the dedup loop was unseen when the loop started. -/
theorem dedupNew_kept_fresh (now : Nat) (its : List Item) (st : SeenStore) :
    ∀ it ∈ (dedupNew now st its).1, is_seen st it.link = false := by
  induction its generalizing st with
  | nil => intro it hit; simp [dedupNew] at hit
  | cons i rest ih =>
    rcases Bool.eq_false_or_eq_true (is_seen st i.link) with hs | hs
    · rw [dedupNew_cons_seen now st i rest hs]
      exact ih st
    · rw [dedupNew_cons_fresh now st i rest hs]
      intro it hit
      rcases List.mem_cons.mp hit with he | hm
      · subst he; exact hs
      · have h2 := ih (mark_seen st i.link now) it hm
        rcases Bool.eq_false_or_eq_true (is_seen st it.link) with hf | hf
        · exact absurd (is_seen_mark_seen st i.link it.link now hf) (by simp [h2])
        · exact hf

/-- The links kept by the dedup loop are pairwise distinct. -/
theorem dedupNew_links_nodup (now : Nat) (its : List Item) (st : SeenStore) :
    (((dedupNew now st its).1).map Item.link).Nodup := by
  induction its generalizing st with
  | nil => simp [dedupNew]
  | cons i rest ih =>
    rcases Bool.eq_false_or_eq_true (is_seen st i.link) with hs | hs
    · rw [dedupNew_cons_seen now st i rest hs]
      exact ih st
    · rw [dedupNew_cons_fresh now st i rest hs]
      simp only [List.map_cons, List.nodup_cons]
      refine ⟨?_, ih _⟩
      intro hmem
      rcases List.mem_map.mp hmem with ⟨it, hit, hlink⟩
      exact dedupNew_seen_not_kept now rest (mark_seen st i.link now) i.link
        (is_seen_mark_self st i.link now) it hit hlink

/-- The source loop never unmarks a seen guid. -/
theorem aggClubs_mono (env : Env) (cs : List Club) (st : SeenStore) (l : String)
    (h : is_seen st l = true) : is_seen (aggregateClubs env st cs).2.1 l = true := by
  induction cs generalizing st with
  | nil => exact h
  | cons c rest ih =>
    exact ih _ (dedupNew_mono env.nowTs _ st l h)

/-- Every item kept by the source loop has its link marked in the final
    store. -/
theorem aggClubs_kept_marked (env : Env) (cs : List Club) (st : SeenStore) (it : Item)
    (h : it ∈ (aggregateClubs env st cs).1) :
    is_seen (aggregateClubs env st cs).2.1 it.link = true := by
  induction cs generalizing st with
  | nil => simp [aggregateClubs] at h
  | cons c rest ih =>
    rcases List.mem_append.mp h with hl | hr
    · exact aggClubs_mono env rest _ it.link (dedupNew_kept_marked env.nowTs _ st it hl)
    · exact ih _ hr

/-- A link seen before the source loop runs is never kept by it. -/
theorem aggClubs_seen_not_kept (env : Env) (cs : List Club) (st : SeenStore) (l : String)
    (h : is_seen st l = true) :
    ∀ it ∈ (aggregateClubs env st cs).1, it.link ≠ l := by
  induction cs generalizing st with
  | nil => intro it hit; simp [aggregateClubs] at hit
  | cons c rest ih =>
    intro it hit
    rcases List.mem_append.mp hit with hl | hr
    · exact dedupNew_seen_not_kept env.nowTs _ st l h it hl
    · exact ih _ (dedupNew_mono env.nowTs _ st l h) it hr

/-- Every item kept by the source loop was unseen when the run started. -/
theorem aggClubs_kept_fresh (env : Env) (cs : List Club) (st : SeenStore) :
    ∀ it ∈ (aggregateClubs env st cs).1, is_seen st it.link = false := by
  induction cs generalizing st with
  | nil => intro it hit; simp [aggregateClubs] at hit
  | cons c rest ih =>
    intro it hit
    rcases List.mem_append.mp hit with hl | hr
    · exact dedupNew_kept_fresh env.nowTs _ st it hl
    · have h2 := ih (dedupNew env.nowTs st
        ((source_items_for env c).1.map (addAttribution c.name))).2 it hr
      rcases Bool.eq_false_or_eq_true (is_seen st it.link) with hf | hf
      · exact absurd (dedupNew_mono env.nowTs
          ((source_items_for env c).1.map (addAttribution c.name)) st it.link hf)
          (by simp [h2])
      · exact hf

/-- The links kept across the whole source loop are pairwise distinct. -/
theorem aggClubs_links_nodup (env : Env) (cs : List Club) (st : SeenStore) :
    (((aggregateClubs env st cs).1).map Item.link).Nodup := by
  induction cs generalizing st with
  | nil => simp [aggregateClubs]
  | cons c rest ih =>
    have hsplit : (aggregateClubs env st (c :: rest)).1 =
        (dedupNew env.nowTs st ((source_items_for env c).1.map (addAttribution c.name))).1 ++
        (aggregateClubs env
          (dedupNew env.nowTs st ((source_items_for env c).1.map (addAttribution c.name))).2
          rest).1 := rfl
    rw [hsplit, List.map_append]
    refine List.Nodup.append
      (dedupNew_links_nodup env.nowTs _ st)
      (ih _) ?_
    intro a ha hb
    rcases List.mem_map.mp ha with ⟨it1, hit1, he1⟩
    rcases List.mem_map.mp hb with ⟨it2, hit2, he2⟩
    have hm : is_seen
        (dedupNew env.nowTs st ((source_items_for env c).1.map (addAttribution c.name))).2
        a = true := he1 ▸ dedupNew_kept_marked env.nowTs _ st it1 hit1
    exact aggClubs_seen_not_kept env rest _ a hm it2 hit2 he2

/-- Descending insertion permutes the extended list. -/
theorem insertDesc_perm (key : Item → Int) (a : Item) (l : List Item) :
    (insertDesc key a l).Perm (a :: l) := by
  induction l with
  | nil => exact List.Perm.refl _
  | cons x xs ih =>
    show (if key x ≤ key a then a :: x :: xs else x :: insertDesc key a xs).Perm (a :: x :: xs)
    split
    · exact List.Perm.refl _
    · exact (ih.cons x).trans (List.Perm.swap a x xs)

/-- The descending sort permutes its input. -/
theorem sortDesc_perm (key : Item → Int) (l : List Item) : (sortDesc key l).Perm l := by
  induction l with
  | nil => exact List.Perm.refl _
  | cons a xs ih =>
    exact (insertDesc_perm key a (sortDesc key xs)).trans (ih.cons a)

/-- Descending insertion preserves the non increasing key order. -/
theorem insertDesc_pairwise (key : Item → Int) (a : Item) (l : List Item)
    (h : l.Pairwise (fun x y => key y ≤ key x)) :
    (insertDesc key a l).Pairwise (fun x y => key y ≤ key x) := by
  induction l with
  | nil => simp [insertDesc]
  | cons x xs ih =>
    rcases List.pairwise_cons.mp h with ⟨hx, hxs⟩
    show (if key x ≤ key a then a :: x :: xs else x :: insertDesc key a xs).Pairwise _
    split
    · refine List.pairwise_cons.mpr ⟨?_, h⟩
      intro b hb
      rcases List.mem_cons.mp hb with he | hm
      · subst he; assumption
      · exact le_trans (hx b hm) (by assumption)
    · refine List.pairwise_cons.mpr ⟨?_, ih hxs⟩
      intro b hb
      have hb2 := (insertDesc_perm key a xs).mem_iff.mp hb
      rcases List.mem_cons.mp hb2 with he | hm
      · subst he; exact le_of_not_le (by assumption)
      · exact hx b hm

/-- The descending sort output is non increasing by the key. -/
theorem sortDesc_pairwise (key : Item → Int) (l : List Item) :
    (sortDesc key l).Pairwise (fun x y => key y ≤ key x) := by
  induction l with
  | nil => simp [sortDesc]
  | cons a xs ih => exact insertDesc_pairwise key a (sortDesc key xs) ih

/-- Link membership is unchanged by the descending sort. -/
theorem mem_links_sortDesc (key : Item → Int) (l : List Item) (x : String) :
    (x ∈ (sortDesc key l).map Item.link) ↔ x ∈ l.map Item.link :=
  ((sortDesc_perm key l).map Item.link).mem_iff

/-- C1: In every run of aggregate, an item obtained from a source is kept
    in the output only if its link is not already recorded in the seen
    store, every kept item link is marked seen by the end of the run, and
    consequently for two consecutive runs sharing the seen store no link
    appears in the output of both runs. -/
theorem c1_cross_run_dedup (env1 env2 : Env) (clubs1 clubs2 : List Club)
    (st0 : SeenStore) (l : String) :
    (is_seen st0 l = true → l ∉ ((aggregate env1 clubs1 st0).1).map Item.link) ∧
    (l ∈ ((aggregate env1 clubs1 st0).1).map Item.link →
      is_seen st0 l = false ∧
      is_seen (aggregate env1 clubs1 st0).2.1 l = true ∧
      l ∉ ((aggregate env2 clubs2 (aggregate env1 clubs1 st0).2.1).1).map Item.link) := by
  have key1 : ∀ env (cs : List Club) (st : SeenStore) (x : String),
      x ∈ ((aggregate env cs st).1).map Item.link ↔
        x ∈ ((aggregateClubs env st cs).1).map Item.link := by
    intro env cs st x
    exact mem_links_sortDesc (parseDateKey env) (aggregateClubs env st cs).1 x
  constructor
  · intro hseen hmem
    rcases List.mem_map.mp ((key1 env1 clubs1 st0 l).mp hmem) with ⟨it, hit, he⟩
    exact aggClubs_seen_not_kept env1 clubs1 st0 l hseen it hit he
  · intro hmem
    rcases List.mem_map.mp ((key1 env1 clubs1 st0 l).mp hmem) with ⟨it, hit, he⟩
    have fresh := aggClubs_kept_fresh env1 clubs1 st0 it hit
    have marked := aggClubs_kept_marked env1 clubs1 st0 it hit
    refine ⟨he ▸ fresh, he ▸ marked, ?_⟩
    intro hmem2
    rcases List.mem_map.mp ((key1 env2 clubs2 _ l).mp hmem2) with ⟨it2, hit2, he2⟩
    exact aggClubs_seen_not_kept env2 clubs2 _ l (he ▸ marked) it2 hit2 he2

/-- A small concrete world: one club whose page advertises one feed with
    one entry, every other url failing. -/
def envW : Env := {
  net := fun u =>
    if u == "http://a" then
      Except.ok ⟨200, "text/html", "",
        [⟨some "application/rss+xml", some "http://a/feed"⟩], []⟩
    else Except.error "down",
  feeds := fun u =>
    if u == "http://a/feed" then
      Except.ok ⟨[⟨some "T1", some "http://a/p1", none, some "S", none, some "2024", none⟩]⟩
    else Except.error "down",
  urljoin := fun _ h => h,
  urlpath := fun _ => "",
  fmtTime := fun _ => "",
  nowStr := "now",
  nowTs := 0,
  isoParse := fun _ => none,
  rfcParse := fun _ => none,
  nowD := 0 }

/-- The club list of the small concrete world. -/
def clubsW : List Club := [⟨"SV", some "http://a"⟩]

/-- C1 witness: a concrete first run emits one link, that link is marked
    seen, and a second run over the same store emits it no more. -/
theorem c1_cross_run_dedup_witness :
    is_seen ⟨[]⟩ "http://a/p1" = false ∧
    is_seen (aggregate envW clubsW ⟨[]⟩).2.1 "http://a/p1" = true ∧
    "http://a/p1" ∉
      ((aggregate envW clubsW (aggregate envW clubsW ⟨[]⟩).2.1).1).map Item.link := by
  have h : "http://a/p1" ∈ ((aggregate envW clubsW ⟨[]⟩).1).map Item.link := by decide
  exact (c1_cross_run_dedup envW envW clubsW clubsW ⟨[]⟩ "http://a/p1").2 h

/-- C10: Within a single run the output of aggregate contains no two items
    with the same link, whatever sources the links come from. -/
theorem c10_no_duplicate_links (env : Env) (clubs : List Club) (st : SeenStore) :
    (((aggregate env clubs st).1).map Item.link).Nodup := by
  have hp : (((aggregate env clubs st).1).map Item.link).Perm
      (((aggregateClubs env st clubs).1).map Item.link) :=
    (sortDesc_perm (parseDateKey env) (aggregateClubs env st clubs).1).map Item.link
  exact hp.nodup_iff.mpr (aggClubs_links_nodup env clubs st)

/-- C2: The output of aggregate is non increasing by parsed publication
    date, and parse_date first tries the ISO form, then the RFC form, and
    returns the current time when both fail, so it returns a value for
    every input string and never raises. -/
theorem c2_sorted_by_parse_date :
    (∀ env clubs st, ((aggregate env clubs st).1).Pairwise
      (fun x y => parseDateKey env y ≤ parseDateKey env x)) ∧
    (∀ iso rfc now s d, iso (replaceZStr s) = some d → parse_date iso rfc now s = d) ∧
    (∀ iso rfc now s d, iso (replaceZStr s) = none → rfc s = some d →
      parse_date iso rfc now s = d) ∧
    (∀ iso rfc now s, iso (replaceZStr s) = none → rfc s = none →
      parse_date iso rfc now s = now) := by
  refine ⟨?_, ?_, ?_, ?_⟩
  · intro env clubs st
    exact sortDesc_pairwise (parseDateKey env) (aggregateClubs env st clubs).1
  · intro iso rfc now s d h
    simp [parse_date, h]
  · intro iso rfc now s d h1 h2
    simp [parse_date, h1, h2]
  · intro iso rfc now s h1 h2
    simp [parse_date, h1, h2]

/-- C2 witness: the three parser branches settle at concrete inputs. -/
theorem c2_sorted_by_parse_date_witness :
    parse_date (fun _ => some 5) (fun _ => none) 7 "x" = 5 ∧
    parse_date (fun _ => none) (fun _ => some 4) 7 "x" = 4 ∧
    parse_date (fun _ => none) (fun _ => none) 7 "x" = 7 :=
  ⟨c2_sorted_by_parse_date.2.1 _ _ 7 "x" 5 rfl,
   c2_sorted_by_parse_date.2.2.1 _ _ 7 "x" 4 rfl rfl,
   c2_sorted_by_parse_date.2.2.2 _ _ 7 "x" rfl rfl⟩

/-- C3: For a source with non empty name, the attribution step leaves the
    title unchanged when it already contains the separator or already
    starts with the name and a colon, otherwise prefixes the name and a
    colon and a space, and always prefixes the description with the
    source note. -/
theorem c3_attribution (name : String) (it : Item) (hname : name ≠ "") :
    ((strContains it.title " - " = true ∨ pyStartsWith it.title (name ++ ":") = true) →
      (addAttribution name it).title = it.title) ∧
    (strContains it.title " - " = false → pyStartsWith it.title (name ++ ":") = false →
      (addAttribution name it).title = name ++ ": " ++ it.title) ∧
    (addAttribution name it).description = "Quelle: " ++ name ++ ". " ++ it.description := by
  refine ⟨?_, ?_, rfl⟩
  · intro h
    unfold addAttribution
    rcases h with h | h <;> simp [h]
  · intro h1 h2
    unfold addAttribution
    simp [h1, h2]

/-- C3 witness: both title branches and the description at concrete
    items. -/
theorem c3_attribution_witness :
    (addAttribution "SV" ⟨"Sieg im Derby", "l", "d", "p"⟩).title = "SV" ++ ": " ++ "Sieg im Derby" ∧
    (addAttribution "SV" ⟨"A - B", "l", "d", "p"⟩).title = "A - B" ∧
    (addAttribution "SV" ⟨"Sieg im Derby", "l", "d", "p"⟩).description =
      "Quelle: " ++ "SV" ++ ". " ++ "d" :=
  ⟨(c3_attribution "SV" ⟨"Sieg im Derby", "l", "d", "p"⟩ (by decide)).2.1 (by decide) (by decide),
   (c3_attribution "SV" ⟨"A - B", "l", "d", "p"⟩ (by decide)).1 (Or.inl (by decide)),
   (c3_attribution "SV" ⟨"Sieg im Derby", "l", "d", "p"⟩ (by decide)).2.2⟩

/-- C8: Marking a guid twice, or marking one already recorded, never
    raises, acts as a silent no-op the second time, and leaves exactly one
    record for that guid; the store side uniqueness bound is the table
    constraint. -/
theorem c8_mark_seen_idempotent (st : SeenStore) (g : String) (t1 t2 : Nat)
    (hinv : st.records.countP (fun rec => rec.1 == g) ≤ 1) :
    mark_seen (mark_seen st g t1) g t2 = mark_seen st g t1 ∧
    ((mark_seen (mark_seen st g t1) g t2).records.countP (fun rec => rec.1 == g)) = 1 := by
  rcases Bool.eq_false_or_eq_true (is_seen st g) with hs | hs
  · have h1 : mark_seen st g t1 = st := by simp [mark_seen, hs]
    have h2 : mark_seen st g t2 = st := by simp [mark_seen, hs]
    have hpos : 0 < st.records.countP (fun rec => rec.1 == g) := by
      rw [List.countP_pos_iff]
      rcases List.any_eq_true.mp hs with ⟨rec, hrec, hp⟩
      exact ⟨rec, hrec, hp⟩
    refine ⟨by rw [h1, h2], ?_⟩
    rw [h1, h2]
    omega
  · have h1 : mark_seen st g t1 = ⟨(g, t1) :: st.records⟩ := by simp [mark_seen, hs]
    have h2 : is_seen (⟨(g, t1) :: st.records⟩ : SeenStore) g = true := by simp [is_seen]
    have h3 : mark_seen (⟨(g, t1) :: st.records⟩ : SeenStore) g t2 =
        ⟨(g, t1) :: st.records⟩ := by simp [mark_seen, h2]
    have hall := List.any_eq_false.mp hs
    have hcount0 : st.records.countP (fun rec => rec.1 == g) = 0 :=
      List.countP_eq_zero.mpr hall
    refine ⟨by rw [h1, h3], ?_⟩
    rw [h1, h3]
    show ((g, t1) :: st.records).countP (fun rec => rec.1 == g) = 1
    rw [List.countP_cons_of_pos _ _ (by simp), hcount0]

/-- C8 witness: the double mark on the empty store. -/
theorem c8_mark_seen_idempotent_witness :
    mark_seen (mark_seen ⟨[]⟩ "g" 1) "g" 2 = mark_seen ⟨[]⟩ "g" 1 ∧
    ((mark_seen (mark_seen ⟨[]⟩ "g" 1) "g" 2).records.countP (fun rec => rec.1 == "g")) = 1 :=
  c8_mark_seen_idempotent ⟨[]⟩ "g" 1 2 (by decide)

/-- When every network call fails, the listing page probing finds no
    page. -/
theorem probeGuess_net_down (net : String → Except String Response) (msg : String)
    (h : ∀ u, net u = Except.error msg) (url : String) (gps : List String) :
    (probeGuess net url gps).1 = none := by
  induction gps with
  | nil => rfl
  | cons gp rest ih => simp [probeGuess, h, ih]

/-- A failing root fetch is caught by discovery and yields none. -/
theorem discover_net_error (env : Env) (url : String) (e : String)
    (h : env.net url = Except.error e) : (discover_rss_from_url env url).1 = none := by
  simp [discover_rss_from_url, http_get, h]

/-- A raised status error on the root fetch is caught by discovery and
    yields none. -/
theorem discover_raise_for_status (env : Env) (url : String) (r : Response)
    (h : env.net url = Except.ok r) (h4 : 400 ≤ r.status) (h6 : r.status < 600) :
    (discover_rss_from_url env url).1 = none := by
  simp [discover_rss_from_url, http_get, h, h4, h6]

/-- A raised feed parse error is caught and yields no items. -/
theorem fetch_feed_error (env : Env) (u e : String) (h : env.feeds u = Except.error e) :
    (fetch_feed_items env u).1 = [] := by
  simp [fetch_feed_items, h]

/-- A failing page fetch is caught by the scraper and yields no items. -/
theorem scrape_net_error (env : Env) (u e : String) (h : env.net u = Except.error e) :
    (scrape_for_articles env u).1 = [] := by
  simp [scrape_for_articles, http_get, h]

/-- A raised status error on the page fetch is caught by the scraper and
    yields no items. -/
theorem scrape_raise_for_status (env : Env) (u : String) (r : Response)
    (h : env.net u = Except.ok r) (h4 : 400 ≤ r.status) (h6 : r.status < 600) :
    (scrape_for_articles env u).1 = [] := by
  simp [scrape_for_articles, http_get, h, h4, h6]

/-- Unfolding of the per source collection on a club with a url. -/
theorem source_items_for_some (env : Env) (nm url : String) :
    source_items_for env ⟨nm, some url⟩ =
      match discover_rss_from_url env url with
      | (some rss, tr) =>
        ((fetch_feed_items env rss).1, tr ++ (fetch_feed_items env rss).2)
      | (none, tr) =>
        match probeGuess env.net url guess_paths with
        | (some guess, tr2) =>
          ((scrape_for_articles env guess).1, tr ++ tr2 ++ (scrape_for_articles env guess).2)
        | (none, tr2) =>
          ((scrape_for_articles env url).1, tr ++ tr2 ++ (scrape_for_articles env url).2) := rfl

/-- When every network call fails, a source contributes no items. -/
theorem source_items_net_down (env : Env) (msg : String)
    (h : ∀ u, env.net u = Except.error msg) (c : Club) :
    (source_items_for env c).1 = [] := by
  obtain ⟨nm, curl⟩ := c
  cases curl with
  | none => rfl
  | some url =>
    have hd : (discover_rss_from_url env url).1 = none :=
      discover_net_error env url msg (h url)
    have hp : (probeGuess env.net url guess_paths).1 = none :=
      probeGuess_net_down env.net msg h url guess_paths
    have hsc : (scrape_for_articles env url).1 = [] :=
      scrape_net_error env url msg (h url)
    rw [source_items_for_some]
    split
    · rename_i rss tr heq
      rw [heq] at hd
      simp at hd
    · rename_i tr heq
      split
      · rename_i guess tr2 heq2
        rw [heq2] at hp
        simp at hp
      · simp [hsc]

/-- When every network call of a run fails, the head source contributes
    nothing and the remaining sources are processed unchanged. -/
theorem aggClubs_net_down_skip (env : Env) (msg : String)
    (h : ∀ u, env.net u = Except.error msg) (st : SeenStore) (c : Club) (rest : List Club) :
    (aggregateClubs env st (c :: rest)).1 = (aggregateClubs env st rest).1 := by
  have hsi := source_items_net_down env msg h c
  have hsplit : (aggregateClubs env st (c :: rest)).1 =
      (dedupNew env.nowTs st ((source_items_for env c).1.map (addAttribution c.name))).1 ++
      (aggregateClubs env
        (dedupNew env.nowTs st ((source_items_for env c).1.map (addAttribution c.name))).2
        rest).1 := rfl
  rw [hsplit, hsi]
  simp [dedupNew]

/-- C4: Any network, parse, or timeout failure raised while discovering,
    reading the feed, or scraping is caught inside the per source
    operation, which returns no feed or an empty item sequence, and a
    source whose calls all fail leaves the processing of the remaining
    sources unchanged. -/
theorem c4_per_source_errors_caught :
    (∀ env url e, env.net url = Except.error e →
      (discover_rss_from_url env url).1 = none) ∧
    (∀ env url r, env.net url = Except.ok r → 400 ≤ r.status → r.status < 600 →
      (discover_rss_from_url env url).1 = none) ∧
    (∀ env u e, env.feeds u = Except.error e → (fetch_feed_items env u).1 = []) ∧
    (∀ env u e, env.net u = Except.error e → (scrape_for_articles env u).1 = []) ∧
    (∀ env u r, env.net u = Except.ok r → 400 ≤ r.status → r.status < 600 →
      (scrape_for_articles env u).1 = []) ∧
    (∀ env msg st c rest, (∀ u, env.net u = Except.error msg) →
      (aggregateClubs env st (c :: rest)).1 = (aggregateClubs env st rest).1) :=
  ⟨fun env url e h => discover_net_error env url e h,
   fun env url r h h4 h6 => discover_raise_for_status env url r h h4 h6,
   fun env u e h => fetch_feed_error env u e h,
   fun env u e h => scrape_net_error env u e h,
   fun env u r h h4 h6 => scrape_raise_for_status env u r h h4 h6,
   fun env msg st c rest h => aggClubs_net_down_skip env msg h st c rest⟩

/-- A world where every network and feed call fails. -/
def envDown : Env := {
  net := fun _ => Except.error "down",
  feeds := fun _ => Except.error "down",
  urljoin := fun _ h => h,
  urlpath := fun _ => "",
  fmtTime := fun _ => "",
  nowStr := "",
  nowTs := 0,
  isoParse := fun _ => none,
  rfcParse := fun _ => none,
  nowD := 0 }

/-- A world where every network call returns status 404. -/
def env404 : Env := {
  net := fun _ => Except.ok ⟨404, "", "", [], []⟩,
  feeds := fun _ => Except.error "down",
  urljoin := fun _ h => h,
  urlpath := fun _ => "",
  fmtTime := fun _ => "",
  nowStr := "",
  nowTs := 0,
  isoParse := fun _ => none,
  rfcParse := fun _ => none,
  nowD := 0 }

/-- C4 witness: every caught failure branch at concrete worlds. -/
theorem c4_per_source_errors_caught_witness :
    (discover_rss_from_url envDown "http://u").1 = none ∧
    (discover_rss_from_url env404 "http://u").1 = none ∧
    (fetch_feed_items envDown "http://u").1 = [] ∧
    (scrape_for_articles envDown "http://u").1 = [] ∧
    (scrape_for_articles env404 "http://u").1 = [] ∧
    (aggregateClubs envDown ⟨[]⟩ [⟨"SV", some "http://u"⟩]).1 =
      (aggregateClubs envDown ⟨[]⟩ []).1 :=
  ⟨c4_per_source_errors_caught.1 envDown "http://u" "down" rfl,
   c4_per_source_errors_caught.2.1 env404 "http://u" ⟨404, "", "", [], []⟩ rfl
     (by decide) (by decide),
   c4_per_source_errors_caught.2.2.1 envDown "http://u" "down" rfl,
   c4_per_source_errors_caught.2.2.2.1 envDown "http://u" "down" rfl,
   c4_per_source_errors_caught.2.2.2.2.1 env404 "http://u" ⟨404, "", "", [], []⟩ rfl
     (by decide) (by decide),
   c4_per_source_errors_caught.2.2.2.2.2 envDown "down" ⟨[]⟩ ⟨"SV", some "http://u"⟩ []
     (fun _ => rfl)⟩

/-- The link tag loop equals the first truthy href, resolved. -/
theorem findHrefResolved_eq (uj : String → String → String) (url : String)
    (ts : List LinkTag) :
    findHrefResolved uj url ts = (firstHref ts).map (uj url) := by
  induction ts with
  | nil => rfl
  | cons lt rest ih =>
    obtain ⟨ta, hre⟩ := lt
    cases hre with
    | none => simpa [findHrefResolved, firstHref] using ih
    | some h =>
      by_cases he : h == ""
      · simp [findHrefResolved, firstHref, he, ih]
      · simp [findHrefResolved, firstHref, he]

/-- C5 (amended): When the root fetch succeeds and some matching link
    element bears a non empty href, discovery returns the first such href
    resolved against the page url, and its request trace is exactly the
    one root request, so no candidate feed path is probed; when matching
    elements exist but none bears a truthy href, discovery falls through
    to probing instead. -/
theorem c5_feed_link_wins (env : Env) (url h : String) (r : Response)
    (hr : env.net url = Except.ok r) (hs : ¬ (400 ≤ r.status ∧ r.status < 600))
    (hh : firstHref (filterLinkTags r.linkTags) = some h) :
    discover_rss_from_url env url =
      (some (env.urljoin url h), [mkGetRequest url REQUEST_TIMEOUT]) := by
  unfold discover_rss_from_url
  rw [show http_get env.net url = (Except.ok r, [mkGetRequest url REQUEST_TIMEOUT]) from by
    simp [http_get, hr, hs]]
  show (match findHrefResolved env.urljoin url (filterLinkTags r.linkTags) with
    | some f => (some f, [mkGetRequest url REQUEST_TIMEOUT])
    | none =>
      let p := probeCandidates env.net (candidates url)
      (p.1, [mkGetRequest url REQUEST_TIMEOUT] ++ p.2)) =
    (some (env.urljoin url h), [mkGetRequest url REQUEST_TIMEOUT])
  rw [findHrefResolved_eq, hh]
  rfl

/-- C5 witness: in the small concrete world the advertised feed link wins
    without probing. -/
theorem c5_feed_link_wins_witness :
    discover_rss_from_url envW "http://a" =
      (some (envW.urljoin "http://a" "http://a/feed"),
        [mkGetRequest "http://a" REQUEST_TIMEOUT]) :=
  c5_feed_link_wins envW "http://a" "http://a/feed"
    ⟨200, "text/html", "", [⟨some "application/rss+xml", some "http://a/feed"⟩], []⟩
    rfl (by decide) (by decide)

/-- A world whose page advertises a matching link element without an
    href, while the first conventional feed path answers with xml. -/
def envC5 : Env := {
  net := fun u =>
    if u == "http://c5.example" then
      Except.ok ⟨200, "text/html", "", [⟨some "application/rss+xml", none⟩], []⟩
    else if u == "http://c5.example/feed" then
      Except.ok ⟨200, "application/xml", "", [], []⟩
    else Except.error "down",
  feeds := fun _ => Except.error "down",
  urljoin := fun _ h => h,
  urlpath := fun _ => "",
  fmtTime := fun _ => "",
  nowStr := "",
  nowTs := 0,
  isoParse := fun _ => none,
  rfcParse := fun _ => none,
  nowD := 0 }

/-- C5 counterexample: the page holds a matching link element, yet
    discovery does not return that element (it has no href); it probes a
    candidate feed path and returns the candidate url, contradicting the
    claim that with a matching element present no candidate path is
    probed. -/
theorem c5_counterexample :
    filterLinkTags [⟨some "application/rss+xml", none⟩] =
      [⟨some "application/rss+xml", none⟩] ∧
    (discover_rss_from_url envC5 "http://c5.example").1 = some "http://c5.example/feed" ∧
    mkGetRequest "http://c5.example/feed" 6 ∈
      (discover_rss_from_url envC5 "http://c5.example").2 := by
  refine ⟨by decide, by decide, by decide⟩

/-- The candidate probing loop accepts exactly the first candidate in the
    fixed order whose response satisfies the acceptance test. -/
theorem probeCandidates_eq_find (net : String → Except String Response) (cs : List String) :
    (probeCandidates net cs).1 = cs.find? (fun c =>
      match net c with
      | Except.ok rr => candidateOk rr
      | Except.error _ => false) := by
  induction cs with
  | nil => rfl
  | cons c rest ih =>
    cases hnc : net c with
    | error e => simp [probeCandidates, hnc, List.find?, ih]
    | ok rr =>
      by_cases hok : candidateOk rr
      · simp [probeCandidates, hnc, List.find?, hok]
      · simp [probeCandidates, hnc, List.find?, hok, ih]

/-- C6 (amended): With a successful root fetch and no matching link
    element bearing a truthy href, discovery returns exactly the first
    candidate path, in the fixed order, whose response has status 200 and
    either xml in the Content-Type header or a case sensitive occurrence
    of the open rss or open feed tag in the body; the body search carries
    no ignore case flag. -/
theorem c6_candidate_acceptance (env : Env) (url : String) (r : Response)
    (hr : env.net url = Except.ok r) (hs : ¬ (400 ≤ r.status ∧ r.status < 600))
    (hh : firstHref (filterLinkTags r.linkTags) = none) :
    (discover_rss_from_url env url).1 = (candidates url).find? (fun c =>
      match env.net c with
      | Except.ok rr => candidateOk rr
      | Except.error _ => false) := by
  unfold discover_rss_from_url
  rw [show http_get env.net url = (Except.ok r, [mkGetRequest url REQUEST_TIMEOUT]) from by
    simp [http_get, hr, hs]]
  show (match findHrefResolved env.urljoin url (filterLinkTags r.linkTags) with
    | some f => (some f, [mkGetRequest url REQUEST_TIMEOUT])
    | none =>
      let p := probeCandidates env.net (candidates url)
      (p.1, [mkGetRequest url REQUEST_TIMEOUT] ++ p.2)).1 = _
  rw [findHrefResolved_eq, hh]
  show (probeCandidates env.net (candidates url)).1 = _
  exact probeCandidates_eq_find env.net (candidates url)

/-- A world with no advertised feed link, a rejected first candidate and
    an accepted second candidate. -/
def envC6w : Env := {
  net := fun u =>
    if u == "http://b" then Except.ok ⟨200, "text/html", "", [], []⟩
    else if u == "http://b/feed" then Except.ok ⟨404, "", "", [], []⟩
    else if u == "http://b/rss" then Except.ok ⟨200, "application/xml", "", [], []⟩
    else Except.error "down",
  feeds := fun _ => Except.error "down",
  urljoin := fun _ h => h,
  urlpath := fun _ => "",
  fmtTime := fun _ => "",
  nowStr := "",
  nowTs := 0,
  isoParse := fun _ => none,
  rfcParse := fun _ => none,
  nowD := 0 }

/-- C6 witness: the second candidate is the first acceptable one and is
    returned. -/
theorem c6_candidate_acceptance_witness :
    (discover_rss_from_url envC6w "http://b").1 = some "http://b/rss" := by
  have h := c6_candidate_acceptance envC6w "http://b" ⟨200, "text/html", "", [], []⟩
    rfl (by decide) (by decide)
  rw [h]
  decide

/-- The candidate acceptance condition as the claim words it, with case
    insensitive matching of the rss and feed tags; written from the claim
    for comparison with candidateOk. -/
def candidateOkSpecCI (rr : Response) : Bool :=
  rr.status == 200 && (strContains rr.contentType "xml" ||
    hasSub (rr.text.data.map asciiLower) ("<rss".data) ||
    hasSub (rr.text.data.map asciiLower) ("<feed".data))

/-- A world whose first candidate feed path answers with an upper case
    rss tag in the body and a non xml content type. -/
def envC6x : Env := {
  net := fun u =>
    if u == "http://c" then Except.ok ⟨200, "text/html", "", [], []⟩
    else if u == "http://c/feed" then
      Except.ok ⟨200, "text/html", "<RSS version=2>", [], []⟩
    else Except.error "down",
  feeds := fun _ => Except.error "down",
  urljoin := fun _ h => h,
  urlpath := fun _ => "",
  fmtTime := fun _ => "",
  nowStr := "",
  nowTs := 0,
  isoParse := fun _ => none,
  rfcParse := fun _ => none,
  nowD := 0 }

/-- C6 counterexample: the first candidate response satisfies the claim
    stated case insensitive acceptance condition, yet the code rejects it
    because its body search is case sensitive, and discovery returns no
    feed at all. -/
theorem c6_counterexample :
    candidateOkSpecCI ⟨200, "text/html", "<RSS version=2>", [], []⟩ = true ∧
    candidateOk ⟨200, "text/html", "<RSS version=2>", [], []⟩ = false ∧
    envC6x.net "http://c/feed" = Except.ok ⟨200, "text/html", "<RSS version=2>", [], []⟩ ∧
    (discover_rss_from_url envC6x "http://c").1 = none := by
  refine ⟨by decide, by decide, rfl, by decide⟩

/-- Every candidate link collected by the anchor loop matches the article
    regex on the full url or has a deep enough url path. -/
theorem anchorCandidates_classified (env : Env) (page : String) (ancs : List Anchor) :
    ∀ p ∈ anchorCandidates env page ancs,
      articleRegex p.1 = true ∨ 3 ≤ pathDepth (env.urlpath p.1) := by
  induction ancs with
  | nil => intro p hp; simp [anchorCandidates] at hp
  | cons a rest ih =>
    intro p hp
    simp only [anchorCandidates] at hp
    split at hp
    · exact ih p hp
    · split at hp
      · exact ih p hp
      · split at hp
        · rcases List.mem_cons.mp hp with he | hm
          · subst he
            left
            assumption
          · exact ih p hm
        · split at hp
          · rcases List.mem_cons.mp hp with he | hm
            · subst he
              right
              assumption
            · exact ih p hm
          · exact ih p hp

/-- The dedup and cap loop only returns elements of its input. -/
theorem uniqueTake_subset (l : List (String × String)) (seenLinks : List String) (n : Nat) :
    ∀ p ∈ uniqueTake l seenLinks n, p ∈ l := by
  induction l generalizing seenLinks n with
  | nil => intro p hp; simp [uniqueTake] at hp
  | cons q rest ih =>
    intro p hp
    simp only [uniqueTake] at hp
    split at hp
    · exact List.mem_cons_of_mem q (ih _ _ p hp)
    · split at hp
      · rw [List.mem_singleton] at hp
        subst hp
        exact List.mem_cons_self p rest
      · rcases List.mem_cons.mp hp with he | hm
        · subst he
          exact List.mem_cons_self p rest
        · exact List.mem_cons_of_mem q (ih _ _ p hm)

/-- Every item produced by the scraper comes from a link matching the
    article regex on the full url or with a deep enough url path. -/
theorem scrape_items_classified (env : Env) (page : String) :
    ∀ it ∈ (scrape_for_articles env page).1,
      articleRegex it.link = true ∨ 3 ≤ pathDepth (env.urlpath it.link) := by
  intro it hit
  unfold scrape_for_articles at hit
  rcases hg : http_get env.net page with ⟨res, tr⟩
  rw [hg] at hit
  cases res with
  | error e => exact absurd hit (List.not_mem_nil it)
  | ok r =>
    rcases List.mem_map.mp hit with ⟨p, hp, he⟩
    have hc := anchorCandidates_classified env page r.anchors p
      (uniqueTake_subset (anchorCandidates env page r.anchors) [] 0 p hp)
    subst he
    exact hc

/-- C7 (amended): An anchor surviving the text and href filters is
    classified as article like exactly when the article regex matches its
    full resolved url (case insensitively, host and query included, not
    only the path) or, as fallback, when that url path has at least three
    non empty segments; and every scraped item satisfies this
    disjunction. -/
theorem c7_article_classification (env : Env) (page : String) (a : Anchor)
    (rest : List Anchor) (h5 : ¬ a.text.length < 5)
    (hh : (pyStartsWith a.href "#" || pyStartsWith a.href "mailto:") = false) :
    (anchorCandidates env page (a :: rest) =
      if articleRegex (env.urljoin page a.href) = true ∨
          3 ≤ pathDepth (env.urlpath (env.urljoin page a.href))
      then (env.urljoin page a.href, a.text) :: anchorCandidates env page rest
      else anchorCandidates env page rest) ∧
    (∀ it ∈ (scrape_for_articles env page).1,
      articleRegex it.link = true ∨ 3 ≤ pathDepth (env.urlpath it.link)) := by
  constructor
  · simp only [anchorCandidates]
    rw [if_neg h5, if_neg (by simp [hh])]
    by_cases hreg : articleRegex (env.urljoin page a.href) = true
    · rw [if_pos hreg, if_pos (Or.inl hreg)]
    · rw [if_neg hreg]
      by_cases hdep : 3 ≤ pathDepth (env.urlpath (env.urljoin page a.href))
      · rw [if_pos hdep, if_pos (Or.inr hdep)]
      · have hnot : ¬ (articleRegex (env.urljoin page a.href) = true ∨
            3 ≤ pathDepth (env.urlpath (env.urljoin page a.href))) := by
          rintro (hc | hc)
          · exact hreg hc
          · exact hdep hc
        rw [if_neg hdep, if_neg hnot]
  · exact scrape_items_classified env page

/-- A world with no reachable network, identity url resolution and
    identity path extraction, for exercising the classifier. -/
def envC7w : Env := {
  net := fun _ => Except.error "down",
  feeds := fun _ => Except.error "down",
  urljoin := fun _ h => h,
  urlpath := fun u => u,
  fmtTime := fun _ => "",
  nowStr := "",
  nowTs := 0,
  isoParse := fun _ => none,
  rfcParse := fun _ => none,
  nowD := 0 }

/-- C7 witness: the classifier equation at one concrete anchor. -/
theorem c7_article_classification_witness :
    anchorCandidates envC7w "http://p" [⟨"/news/artikel-1", "Bericht lesen"⟩] =
      if articleRegex (envC7w.urljoin "http://p" "/news/artikel-1") = true ∨
          3 ≤ pathDepth (envC7w.urlpath (envC7w.urljoin "http://p" "/news/artikel-1"))
      then (envC7w.urljoin "http://p" "/news/artikel-1", "Bericht lesen") ::
        anchorCandidates envC7w "http://p" []
      else anchorCandidates envC7w "http://p" [] :=
  (c7_article_classification envC7w "http://p" ⟨"/news/artikel-1", "Bericht lesen"⟩ []
    (by decide) (by decide)).1

/-- The article classifier as the claim words it: the keyword patterns
    matched against the url path only, or at least three non empty path
    segments; written from the claim for comparison with the code. -/
def articleLikePathSpec (path : String) : Bool :=
  articleRegex path || decide (3 ≤ pathDepth path)

/-- A world whose page links to a site that carries the blog keyword in
    its host name while its path is the bare root; the path of that url
    is the single slash. -/
def envC7x : Env := {
  net := fun u =>
    if u == "http://page.example" then
      Except.ok ⟨200, "text/html", "", [], [⟨"https://blog.example.com/", "Neuigkeiten"⟩]⟩
    else Except.error "down",
  feeds := fun _ => Except.error "down",
  urljoin := fun _ h => h,
  urlpath := fun u => if u == "https://blog.example.com/" then "/" else "",
  fmtTime := fun _ => "",
  nowStr := "now",
  nowTs := 0,
  isoParse := fun _ => none,
  rfcParse := fun _ => none,
  nowD := 0 }

/-- C7 counterexample: the code keeps a link whose path is the bare root,
    because the regex is searched over the whole resolved url and the
    host name contains the blog keyword; the path based classifier of the
    claim rejects that link. -/
theorem c7_counterexample :
    ((scrape_for_articles envC7x "http://page.example").1).map Item.link =
      ["https://blog.example.com/"] ∧
    envC7x.urlpath "https://blog.example.com/" = "/" ∧
    articleLikePathSpec "/" = false := by
  refine ⟨by decide, rfl, by decide⟩

/-- The header discipline every recorded request satisfies: a request
    through the HTTP client carries the fixed user agent, one delegated
    to the feed parsing library carries no program supplied agent. -/
def agentDiscipline (req : Request) : Prop :=
  (req.via = ReqKind.requestsLib → req.userAgent = some USER_AGENT) ∧
  (req.via = ReqKind.feedparserLib → req.userAgent = none)

/-- Requests built by the HTTP client helper satisfy the discipline. -/
theorem agentDiscipline_mk (u : String) (t : Nat) : agentDiscipline (mkGetRequest u t) :=
  ⟨fun _ => rfl, fun h => ReqKind.noConfusion h⟩

/-- The root fetch trace satisfies the discipline. -/
theorem http_get_trace (net : String → Except String Response) (url : String) :
    ∀ req ∈ (http_get net url).2, agentDiscipline req := by
  intro req hreq
  have h : req = mkGetRequest url REQUEST_TIMEOUT := List.mem_singleton.mp hreq
  subst h
  exact agentDiscipline_mk url REQUEST_TIMEOUT

/-- The candidate probing trace satisfies the discipline. -/
theorem probeCandidates_trace (net : String → Except String Response) (cs : List String) :
    ∀ req ∈ (probeCandidates net cs).2, agentDiscipline req := by
  induction cs with
  | nil => intro req hreq; exact absurd hreq (List.not_mem_nil req)
  | cons c rest ih =>
    intro req hreq
    cases hnc : net c with
    | error e =>
      rw [show probeCandidates net (c :: rest) =
          ((probeCandidates net rest).1, mkGetRequest c 6 :: (probeCandidates net rest).2)
        from by simp [probeCandidates, hnc]] at hreq
      rcases List.mem_cons.mp hreq with he | hm
      · subst he; exact agentDiscipline_mk c 6
      · exact ih req hm
    | ok rr =>
      by_cases hok : candidateOk rr = true
      · rw [show probeCandidates net (c :: rest) = (some c, [mkGetRequest c 6]) from by
          simp [probeCandidates, hnc, hok]] at hreq
        have h := List.mem_singleton.mp hreq
        subst h
        exact agentDiscipline_mk c 6
      · rw [show probeCandidates net (c :: rest) =
            ((probeCandidates net rest).1, mkGetRequest c 6 :: (probeCandidates net rest).2)
          from by simp [probeCandidates, hnc, hok]] at hreq
        rcases List.mem_cons.mp hreq with he | hm
        · subst he; exact agentDiscipline_mk c 6
        · exact ih req hm

/-- The listing page probing trace satisfies the discipline. -/
theorem probeGuess_trace (net : String → Except String Response) (url : String)
    (gps : List String) :
    ∀ req ∈ (probeGuess net url gps).2, agentDiscipline req := by
  induction gps with
  | nil => intro req hreq; exact absurd hreq (List.not_mem_nil req)
  | cons gp rest ih =>
    intro req hreq
    cases hnc : net (rstripSlash url ++ gp) with
    | error e =>
      rw [show probeGuess net url (gp :: rest) =
          ((probeGuess net url rest).1,
            mkGetRequest (rstripSlash url ++ gp) 6 :: (probeGuess net url rest).2)
        from by simp [probeGuess, hnc]] at hreq
      rcases List.mem_cons.mp hreq with he | hm
      · subst he; exact agentDiscipline_mk _ 6
      · exact ih req hm
    | ok r =>
      by_cases hok : r.status = 200 ∧ 200 < r.text.length
      · rw [show probeGuess net url (gp :: rest) =
            (some (rstripSlash url ++ gp), [mkGetRequest (rstripSlash url ++ gp) 6]) from by
          simp [probeGuess, hnc, hok]] at hreq
        have h := List.mem_singleton.mp hreq
        subst h
        exact agentDiscipline_mk _ 6
      · rw [show probeGuess net url (gp :: rest) =
            ((probeGuess net url rest).1,
              mkGetRequest (rstripSlash url ++ gp) 6 :: (probeGuess net url rest).2)
          from by simp [probeGuess, hnc, hok]] at hreq
        rcases List.mem_cons.mp hreq with he | hm
        · subst he; exact agentDiscipline_mk _ 6
        · exact ih req hm

/-- The discovery trace satisfies the discipline. -/
theorem discover_trace (env : Env) (url : String) :
    ∀ req ∈ (discover_rss_from_url env url).2, agentDiscipline req := by
  intro req hreq
  unfold discover_rss_from_url at hreq
  rcases hg : http_get env.net url with ⟨res, tr⟩
  rw [hg] at hreq
  have htr : ∀ q ∈ tr, agentDiscipline q := fun q hq =>
    http_get_trace env.net url q (by rw [hg]; exact hq)
  cases res with
  | error e => exact htr req hreq
  | ok r =>
    change req ∈ (match findHrefResolved env.urljoin url (filterLinkTags r.linkTags) with
      | some f => (some f, tr)
      | none =>
        let p := probeCandidates env.net (candidates url)
        (p.1, tr ++ p.2)).2 at hreq
    cases hf : findHrefResolved env.urljoin url (filterLinkTags r.linkTags) with
    | some f =>
      rw [hf] at hreq
      exact htr req hreq
    | none =>
      rw [hf] at hreq
      rcases List.mem_append.mp hreq with h1 | h2
      · exact htr req h1
      · exact probeCandidates_trace env.net (candidates url) req h2

/-- The feed read trace is exactly the one library request without a
    program supplied agent. -/
theorem fetch_feed_items_trace_eq (env : Env) (u : String) :
    (fetch_feed_items env u).2 = [⟨u, none, none, ReqKind.feedparserLib⟩] := by
  unfold fetch_feed_items
  cases env.feeds u <;> rfl

/-- The feed read trace satisfies the discipline. -/
theorem fetch_feed_trace (env : Env) (u : String) :
    ∀ req ∈ (fetch_feed_items env u).2, agentDiscipline req := by
  intro req hreq
  rw [fetch_feed_items_trace_eq] at hreq
  have h := List.mem_singleton.mp hreq
  subst h
  exact ⟨fun h2 => ReqKind.noConfusion h2, fun _ => rfl⟩

/-- The scraper trace satisfies the discipline. -/
theorem scrape_trace (env : Env) (page : String) :
    ∀ req ∈ (scrape_for_articles env page).2, agentDiscipline req := by
  intro req hreq
  unfold scrape_for_articles at hreq
  rcases hg : http_get env.net page with ⟨res, tr⟩
  rw [hg] at hreq
  have htr : ∀ q ∈ tr, agentDiscipline q := fun q hq =>
    http_get_trace env.net page q (by rw [hg]; exact hq)
  cases res with
  | error e => exact htr req hreq
  | ok r => exact htr req hreq

/-- The per source trace satisfies the discipline. -/
theorem source_items_trace (env : Env) (c : Club) :
    ∀ req ∈ (source_items_for env c).2, agentDiscipline req := by
  obtain ⟨nm, curl⟩ := c
  cases curl with
  | none => intro req hreq; exact absurd hreq (List.not_mem_nil req)
  | some url =>
    intro req hreq
    rw [source_items_for_some] at hreq
    split at hreq
    · rename_i rss tr heq
      rcases List.mem_append.mp hreq with h1 | h2
      · exact discover_trace env url req (by rw [heq]; exact h1)
      · exact fetch_feed_trace env rss req h2
    · rename_i tr heq
      split at hreq
      · rename_i guess tr2 heq2
        rcases List.mem_append.mp hreq with h12 | h3
        · rcases List.mem_append.mp h12 with h1 | h2
          · exact discover_trace env url req (by rw [heq]; exact h1)
          · exact probeGuess_trace env.net url guess_paths req (by rw [heq2]; exact h2)
        · exact scrape_trace env guess req h3
      · rename_i tr2 heq2
        rcases List.mem_append.mp hreq with h12 | h3
        · rcases List.mem_append.mp h12 with h1 | h2
          · exact discover_trace env url req (by rw [heq]; exact h1)
          · exact probeGuess_trace env.net url guess_paths req (by rw [heq2]; exact h2)
        · exact scrape_trace env url req h3

/-- The whole run trace satisfies the discipline. -/
theorem aggClubs_trace (env : Env) (cs : List Club) (st : SeenStore) :
    ∀ req ∈ (aggregateClubs env st cs).2.2, agentDiscipline req := by
  induction cs generalizing st with
  | nil => intro req hreq; exact absurd hreq (List.not_mem_nil req)
  | cons c rest ih =>
    intro req hreq
    rcases List.mem_append.mp hreq with h1 | h2
    · exact source_items_trace env c req h1
    · exact ih _ req h2

/-- C9 (amended): Every outbound request issued directly through the HTTP
    client during a run carries the fixed client identifier in its user
    agent header, while the fetch of a discovered feed is delegated to
    the feed parsing library without the program supplying that
    identifier. -/
theorem c9_user_agent (env : Env) (clubs : List Club) (st : SeenStore) :
    ∀ req ∈ (aggregate env clubs st).2.2,
      (req.via = ReqKind.requestsLib → req.userAgent = some USER_AGENT) ∧
      (req.via = ReqKind.feedparserLib → req.userAgent = none) := by
  intro req hreq
  exact aggClubs_trace env clubs st req hreq

/-- C9 witness: the root request of the concrete run carries the fixed
    user agent. -/
theorem c9_user_agent_witness :
    (mkGetRequest "http://a" REQUEST_TIMEOUT).userAgent = some USER_AGENT :=
  (c9_user_agent envW clubsW ⟨[]⟩ (mkGetRequest "http://a" REQUEST_TIMEOUT) (by decide)).1 rfl

/-- C9 counterexample: the concrete run issues the feed fetch request
    without the fixed user agent, so not every outbound request of a run
    carries it. -/
theorem c9_counterexample :
    ∃ req ∈ (aggregate envW clubsW ⟨[]⟩).2.2, req.userAgent ≠ some USER_AGENT := by
  refine ⟨⟨"http://a/feed", none, none, ReqKind.feedparserLib⟩, by decide, by decide⟩
